import Mathlib

/-!
Verification of the pvoxel intersection example and the CVoxels engine it
exercises.

The repository source under scrutiny is the demo
src/examples/intersection/src/main.rs, which drives the cvoxel crate
(CVoxels and its methods).  Index decomposition and the local-offset
formula are embedded directly from the demo code; the cvoxel crate itself
(from_trimesh, intersection_aabb, intersected, surface_mesh) is modelled
from the specification, as noted on each definition.  Real-number
quantities (f32 in the source) are embedded as rationals.
-/

/-- A 3-component vector over the rationals (embeds nalgebra Vector3 and
Point3 values, with f32 modelled as the rationals). -/
structure Vec3 where
  x : ℚ
  y : ℚ
  z : ℚ
deriving DecidableEq

namespace Vec3

/-- Componentwise addition. -/
def add (a b : Vec3) : Vec3 := ⟨a.x + b.x, a.y + b.y, a.z + b.z⟩

/-- Componentwise subtraction. -/
def sub (a b : Vec3) : Vec3 := ⟨a.x - b.x, a.y - b.y, a.z - b.z⟩

/-- Componentwise negation. -/
def neg (a : Vec3) : Vec3 := ⟨-a.x, -a.y, -a.z⟩

/-- Scalar multiplication. -/
def smul (q : ℚ) (a : Vec3) : Vec3 := ⟨q * a.x, q * a.y, q * a.z⟩

/-- Componentwise minimum. -/
def vmin (a b : Vec3) : Vec3 := ⟨min a.x b.x, min a.y b.y, min a.z b.z⟩

/-- Componentwise maximum. -/
def vmax (a b : Vec3) : Vec3 := ⟨max a.x b.x, max a.y b.y, max a.z b.z⟩

/-- Dot product. -/
def dot (a b : Vec3) : ℚ := a.x * b.x + a.y * b.y + a.z * b.z

instance : Add Vec3 := ⟨add⟩

instance : Sub Vec3 := ⟨sub⟩

instance : Neg Vec3 := ⟨neg⟩

instance : Zero Vec3 := ⟨⟨0, 0, 0⟩⟩

end Vec3

/-- A 3 by 3 matrix over the rationals, stored as rows; embeds the
rotation part of an nalgebra Isometry3. -/
structure Mat3 where
  r0 : Vec3
  r1 : Vec3
  r2 : Vec3
deriving DecidableEq

namespace Mat3

/-- Matrix-vector product. -/
def mulVec (m : Mat3) (v : Vec3) : Vec3 := ⟨m.r0.dot v, m.r1.dot v, m.r2.dot v⟩

/-- The identity matrix. -/
def idm : Mat3 := ⟨⟨1, 0, 0⟩, ⟨0, 1, 0⟩, ⟨0, 0, 1⟩⟩

/-- Matrix product. -/
def mul (a b : Mat3) : Mat3 :=
  ⟨⟨a.r0.dot ⟨b.r0.x, b.r1.x, b.r2.x⟩, a.r0.dot ⟨b.r0.y, b.r1.y, b.r2.y⟩, a.r0.dot ⟨b.r0.z, b.r1.z, b.r2.z⟩⟩,
   ⟨a.r1.dot ⟨b.r0.x, b.r1.x, b.r2.x⟩, a.r1.dot ⟨b.r0.y, b.r1.y, b.r2.y⟩, a.r1.dot ⟨b.r0.z, b.r1.z, b.r2.z⟩⟩,
   ⟨a.r2.dot ⟨b.r0.x, b.r1.x, b.r2.x⟩, a.r2.dot ⟨b.r0.y, b.r1.y, b.r2.y⟩, a.r2.dot ⟨b.r0.z, b.r1.z, b.r2.z⟩⟩⟩

theorem idm_mulVec (v : Vec3) : idm.mulVec v = v := by
  simp [mulVec, idm, Vec3.dot]

end Mat3

/-- A rigid transform: rotation part plus translation, embedding
nalgebra Isometry3 (the rotation is carried as its matrix). -/
structure Iso3 where
  rot : Mat3
  tr : Vec3
deriving DecidableEq

namespace Iso3

/-- Apply the transform to a point: rotate, then translate. -/
def apply (t : Iso3) (v : Vec3) : Vec3 := t.rot.mulVec v + t.tr

/-- Composition of isometries, as the Isometry3 multiplication of nalgebra:
the rotation parts compose and the translation of the right factor is
carried through the left factor. -/
def mul (a b : Iso3) : Iso3 := ⟨a.rot.mul b.rot, a.rot.mulVec b.tr + a.tr⟩

/-- A pure translation (identity rotation). -/
def ofTranslation (v : Vec3) : Iso3 := ⟨Mat3.idm, v⟩

/-- The identity transform. -/
def identity : Iso3 := ⟨Mat3.idm, 0⟩

end Iso3

/-- Grid dimensions along local X/Y/Z (the shape field of CVoxels). -/
structure Shape3 where
  x : ℕ
  y : ℕ
  z : ℕ
deriving DecidableEq

/-- The core voxel-grid entity of the cvoxel crate, as described by the
data model: voxel edge length dx, grid shape, precomputed area,
half-extent of the local bounding box, dense occupancy array over flat
indices, and the rigid transform placing the grid in world space. -/
structure CVoxels where
  dx : ℚ
  shape : Shape3
  area : ℕ
  half_size : Vec3
  occupancy : List Bool
  transform : Iso3
deriving DecidableEq

namespace CVoxels

/-- Total number of cells of the grid. -/
def totalCells (cv : CVoxels) : ℕ := cv.shape.x * cv.shape.y * cv.shape.z

/-- Well-formedness invariants of the data model: positive voxel size,
area precomputed from the shape, half_size consistent with shape and dx,
and an occupancy array of the right length. -/
def WF (cv : CVoxels) : Prop :=
  0 < cv.dx ∧
  cv.area = cv.shape.x * cv.shape.y ∧
  cv.half_size = ⟨cv.shape.x * cv.dx / 2, cv.shape.y * cv.dx / 2, cv.shape.z * cv.dx / 2⟩ ∧
  cv.occupancy.length = cv.totalCells

end CVoxels

/-- Flat-index decomposition, embedded from draw_single_voxel_in_object
in src/examples/intersection/src/main.rs: z = index / area,
left = index % area, y = left / shape.x, x = left % shape.x. -/
def decomposeIndex (cv : CVoxels) (index : ℕ) : ℕ × ℕ × ℕ :=
  let z := index / cv.area
  let left := index % cv.area
  let y := left / cv.shape.x
  let x := left % cv.shape.x
  (x, y, z)

/-- Flat-index recomposition z * area + y * shape.x + x, the inverse
direction of the decomposition used by the data model. -/
def recomposeIndex (cv : CVoxels) (x y z : ℕ) : ℕ := z * cv.area + y * cv.shape.x + x

/-- Rust integer division, which panics (models as none) on a zero
divisor. -/
def checkedDiv (a b : ℕ) : Option ℕ := if b = 0 then none else some (a / b)

/-- Rust integer remainder, which panics (models as none) on a zero
divisor. -/
def checkedMod (a b : ℕ) : Option ℕ := if b = 0 then none else some (a % b)

/-- Flat-index decomposition with Rust division semantics made explicit:
each / and % of draw_single_voxel_in_object is checked, and the result is
none exactly when some division panics. -/
def decomposeIndexChecked (cv : CVoxels) (index : ℕ) : Option (ℕ × ℕ × ℕ) :=
  match checkedDiv index cv.area, checkedMod index cv.area with
  | some z, some left =>
    match checkedDiv left cv.shape.x, checkedMod left cv.shape.x with
    | some y, some x => some (x, y, z)
    | _, _ => none
  | _, _ => none

/-- C1: for every VoxelGrid with area = shape.x * shape.y and every flat
index i in [0, shape.x * shape.y * shape.z), decomposing i via
z = i / area, rem = i % area, y = rem / shape.x, x = rem % shape.x and
recomposing z * area + y * shape.x + x yields i again. -/
theorem index_round_trip (cv : CVoxels) (index : ℕ)
    (harea : cv.area = cv.shape.x * cv.shape.y)
    (hlt : index < cv.shape.x * cv.shape.y * cv.shape.z) :
    recomposeIndex cv (decomposeIndex cv index).1 (decomposeIndex cv index).2.1
      (decomposeIndex cv index).2.2 = index := by
  unfold recomposeIndex decomposeIndex
  simp only
  have h1 := Nat.div_add_mod index cv.area
  have h2 := Nat.div_add_mod (index % cv.area) cv.shape.x
  calc index / cv.area * cv.area + index % cv.area / cv.shape.x * cv.shape.x
        + index % cv.area % cv.shape.x
      = cv.area * (index / cv.area)
        + (cv.shape.x * (index % cv.area / cv.shape.x) + index % cv.area % cv.shape.x) := by
        ring
    _ = cv.area * (index / cv.area) + index % cv.area := by rw [h2]
    _ = index := h1

/-- Witness for index_round_trip at a concrete grid with shape (3, 2, 2),
area 6 and flat index 7. -/
theorem index_round_trip_witness :
    recomposeIndex ⟨1, ⟨3, 2, 2⟩, 6, ⟨0, 0, 0⟩, [], Iso3.identity⟩
      (decomposeIndex ⟨1, ⟨3, 2, 2⟩, 6, ⟨0, 0, 0⟩, [], Iso3.identity⟩ 7).1
      (decomposeIndex ⟨1, ⟨3, 2, 2⟩, 6, ⟨0, 0, 0⟩, [], Iso3.identity⟩ 7).2.1
      (decomposeIndex ⟨1, ⟨3, 2, 2⟩, 6, ⟨0, 0, 0⟩, [], Iso3.identity⟩ 7).2.2 = 7 :=
  index_round_trip ⟨1, ⟨3, 2, 2⟩, 6, ⟨0, 0, 0⟩, [], Iso3.identity⟩ 7 (by decide) (by decide)

/-- C10: the flat-index decomposition of draw_single_voxel_in_object is
total (no division panics) for every incoming index exactly when
area ≥ 1 and shape.x ≥ 1; when area = 0 or shape.x = 0 some division is
by zero.  Moreover on the panic-free side the checked decomposition
agrees with the direct one. -/
theorem decompose_totality (cv : CVoxels) :
    ((∀ index : ℕ, (decomposeIndexChecked cv index).isSome) ↔
      (1 ≤ cv.area ∧ 1 ≤ cv.shape.x)) ∧
    (∀ index : ℕ, 1 ≤ cv.area → 1 ≤ cv.shape.x →
      decomposeIndexChecked cv index = some (decomposeIndex cv index)) := by
  constructor
  · constructor
    · intro h
      have h0 := h 0
      by_cases ha : cv.area = 0
      · simp [decomposeIndexChecked, checkedDiv, ha] at h0
      · by_cases hx : cv.shape.x = 0
        · simp [decomposeIndexChecked, checkedDiv, checkedMod, ha, hx] at h0
        · exact ⟨Nat.one_le_iff_ne_zero.mpr ha, Nat.one_le_iff_ne_zero.mpr hx⟩
    · rintro ⟨ha, hx⟩ index
      have ha0 : cv.area ≠ 0 := Nat.one_le_iff_ne_zero.mp ha
      have hx0 : cv.shape.x ≠ 0 := Nat.one_le_iff_ne_zero.mp hx
      simp [decomposeIndexChecked, checkedDiv, checkedMod, ha0, hx0]
  · intro index ha hx
    have ha0 : cv.area ≠ 0 := Nat.one_le_iff_ne_zero.mp ha
    have hx0 : cv.shape.x ≠ 0 := Nat.one_le_iff_ne_zero.mp hx
    simp [decomposeIndexChecked, checkedDiv, checkedMod, ha0, hx0, decomposeIndex]

/-- Witness for decompose_totality: on the grid with shape (3, 2, 2) and
area 6 the checked decomposition of index 7 succeeds. -/
theorem decompose_totality_witness :
    decomposeIndexChecked ⟨1, ⟨3, 2, 2⟩, 6, ⟨0, 0, 0⟩, [], Iso3.identity⟩ 7 =
      some (decomposeIndex ⟨1, ⟨3, 2, 2⟩, 6, ⟨0, 0, 0⟩, [], Iso3.identity⟩ 7) :=
  (decompose_totality ⟨1, ⟨3, 2, 2⟩, 6, ⟨0, 0, 0⟩, [], Iso3.identity⟩).2 7
    (by decide) (by decide)

/-- Componentwise extensionality for Vec3. -/
theorem Vec3.ext3 (a b : Vec3) (hx : a.x = b.x) (hy : a.y = b.y) (hz : a.z = b.z) :
    a = b := by
  cases a; cases b; simp_all

@[simp] theorem Vec3.add_x (a b : Vec3) : (a + b).x = a.x + b.x := rfl

@[simp] theorem Vec3.add_y (a b : Vec3) : (a + b).y = a.y + b.y := rfl

@[simp] theorem Vec3.add_z (a b : Vec3) : (a + b).z = a.z + b.z := rfl

@[simp] theorem Vec3.sub_x (a b : Vec3) : (a - b).x = a.x - b.x := rfl

@[simp] theorem Vec3.sub_y (a b : Vec3) : (a - b).y = a.y - b.y := rfl

@[simp] theorem Vec3.sub_z (a b : Vec3) : (a - b).z = a.z - b.z := rfl

@[simp] theorem Vec3.smul_x (q : ℚ) (a : Vec3) : (Vec3.smul q a).x = q * a.x := rfl

@[simp] theorem Vec3.smul_y (q : ℚ) (a : Vec3) : (Vec3.smul q a).y = q * a.y := rfl

@[simp] theorem Vec3.smul_z (q : ℚ) (a : Vec3) : (Vec3.smul q a).z = q * a.z := rfl

@[simp] theorem Vec3.vmin_x (a b : Vec3) : (Vec3.vmin a b).x = min a.x b.x := rfl

@[simp] theorem Vec3.vmin_y (a b : Vec3) : (Vec3.vmin a b).y = min a.y b.y := rfl

@[simp] theorem Vec3.vmin_z (a b : Vec3) : (Vec3.vmin a b).z = min a.z b.z := rfl

@[simp] theorem Vec3.vmax_x (a b : Vec3) : (Vec3.vmax a b).x = max a.x b.x := rfl

@[simp] theorem Vec3.vmax_y (a b : Vec3) : (Vec3.vmax a b).y = max a.y b.y := rfl

@[simp] theorem Vec3.vmax_z (a b : Vec3) : (Vec3.vmax a b).z = max a.z b.z := rfl

@[simp] theorem Vec3.neg_x (a : Vec3) : (Vec3.neg a).x = -a.x := rfl

@[simp] theorem Vec3.neg_y (a : Vec3) : (Vec3.neg a).y = -a.y := rfl

@[simp] theorem Vec3.neg_z (a : Vec3) : (Vec3.neg a).z = -a.z := rfl

/-- An axis-aligned bounding box given by its per-axis minima and
maxima. -/
structure Aabb where
  lo : Vec3
  hi : Vec3
deriving DecidableEq

/-- Select the hi coordinate when the flag is set, else the lo one. -/
def pick (b : Bool) (l h : ℚ) : ℚ := if b then h else l

/-- One of the 8 corners of the axis-aligned box [lo, hi], selected by
three flags. -/
def boxCorner (lo hi : Vec3) (b1 b2 b3 : Bool) : Vec3 :=
  ⟨pick b1 lo.x hi.x, pick b2 lo.y hi.y, pick b3 lo.z hi.z⟩

/-- Modelled from the spec: the world AABB of a transformed local box is
obtained by pushing its 8 corner points through the transform and taking
the componentwise min and max (the cvoxel crate source is not under
src/). -/
def transformedBoxAabb (t : Iso3) (lo hi : Vec3) : Aabb :=
  let c0 := t.apply (boxCorner lo hi false false false)
  let c1 := t.apply (boxCorner lo hi true false false)
  let c2 := t.apply (boxCorner lo hi false true false)
  let c3 := t.apply (boxCorner lo hi true true false)
  let c4 := t.apply (boxCorner lo hi false false true)
  let c5 := t.apply (boxCorner lo hi true false true)
  let c6 := t.apply (boxCorner lo hi false true true)
  let c7 := t.apply (boxCorner lo hi true true true)
  ⟨Vec3.vmin c0 (Vec3.vmin c1 (Vec3.vmin c2 (Vec3.vmin c3
      (Vec3.vmin c4 (Vec3.vmin c5 (Vec3.vmin c6 c7)))))),
   Vec3.vmax c0 (Vec3.vmax c1 (Vec3.vmax c2 (Vec3.vmax c3
      (Vec3.vmax c4 (Vec3.vmax c5 (Vec3.vmax c6 c7))))))⟩

namespace Aabb

/-- Axis-wise intersection of two boxes: max of the minima, min of the
maxima. -/
def inter (a b : Aabb) : Aabb := ⟨Vec3.vmax a.lo b.lo, Vec3.vmin a.hi b.hi⟩

/-- A box is nonempty when no axis has its minimum above its maximum. -/
def nonemptyP (a : Aabb) : Prop := a.lo.x ≤ a.hi.x ∧ a.lo.y ≤ a.hi.y ∧ a.lo.z ≤ a.hi.z

instance (a : Aabb) : Decidable a.nonemptyP := by
  unfold Aabb.nonemptyP; infer_instance

/-- Two boxes overlap when their axis-wise intersection is nonempty;
this is the axis-wise overlap test shared by broad and narrow phase. -/
def overlaps (a b : Aabb) : Prop := (inter a b).nonemptyP

instance (a b : Aabb) : Decidable (overlaps a b) := by
  unfold Aabb.overlaps; infer_instance

end Aabb

namespace CVoxels

/-- Modelled from the spec: the world AABB of a grid is computed from its 8
local corner points, the combinations of plus and minus half_size,
transformed through the transform of that grid (the cvoxel crate source is
not under src/). -/
def world_aabb (cv : CVoxels) : Aabb :=
  transformedBoxAabb cv.transform (Vec3.neg cv.half_size) cv.half_size

/-- Modelled from the spec: broad-phase intersection of the two world
AABBs, axis-wise; none exactly when some axis of the intersection is
empty (the cvoxel crate source is not under src/). -/
def intersection_aabb (a b : CVoxels) : Option Aabb :=
  let i := Aabb.inter a.world_aabb b.world_aabb
  if i.nonemptyP then some i else none

/-- Local-space lower corner of the cell at the given flat index. -/
def cellLocalLo (cv : CVoxels) (index : ℕ) : Vec3 :=
  let p := decomposeIndex cv index
  Vec3.smul cv.dx ⟨(p.1 : ℚ), (p.2.1 : ℚ), (p.2.2 : ℚ)⟩ - cv.half_size

/-- Local-space upper corner of the cell at the given flat index. -/
def cellLocalHi (cv : CVoxels) (index : ℕ) : Vec3 :=
  let p := decomposeIndex cv index
  Vec3.smul cv.dx ⟨(p.1 : ℚ) + 1, (p.2.1 : ℚ) + 1, (p.2.2 : ℚ) + 1⟩ - cv.half_size

/-- Modelled from the spec: the world-space AABB of one occupied cell,
its corners transformed by the transform of the grid (the cvoxel crate source
is not under src/). -/
def cellWorldAabb (cv : CVoxels) (index : ℕ) : Aabb :=
  transformedBoxAabb cv.transform (cv.cellLocalLo index) (cv.cellLocalHi index)

/-- Occupied flat indices in ascending order, read off the dense
occupancy array. -/
def occupiedIndices (cv : CVoxels) : List ℕ :=
  (List.range cv.totalCells).filter (fun i => cv.occupancy.getD i false)

/-- Modelled from the spec: narrow-phase scan; enumerate occupied voxels
of the first grid in index-ascending order, and for each, occupied
voxels of the second grid likewise; return the first pair whose
world-space cell AABBs overlap (the cvoxel crate source is not under
src/). -/
def intersected (a b : CVoxels) : Option (ℕ × ℕ) :=
  a.occupiedIndices.findSome? (fun i =>
    (b.occupiedIndices.find? (fun j =>
      decide (Aabb.overlaps (a.cellWorldAabb i) (b.cellWorldAabb j)))).map (fun j => (i, j)))

end CVoxels

/-- Local center offset of a voxel as computed by
draw_single_voxel_in_object in the demo source: coords cast to float
times dx, plus half a voxel, minus half_size. -/
def drawVoxelLocalOffset (cv : CVoxels) (index : ℕ) : Vec3 :=
  let p := decomposeIndex cv index
  let voxelSize : Vec3 := ⟨cv.dx, cv.dx, cv.dx⟩
  Vec3.smul cv.dx ⟨(p.1 : ℚ), (p.2.1 : ℚ), (p.2.2 : ℚ)⟩ + Vec3.smul (1 / 2) voxelSize
    - cv.half_size

/-- World placement of the voxel gizmo as computed by
draw_single_voxel_in_object: the grid transform composed with the pure
translation by the local offset. -/
def drawVoxelIso (cv : CVoxels) (index : ℕ) : Iso3 :=
  Iso3.mul cv.transform (Iso3.ofTranslation (drawVoxelLocalOffset cv index))

/-- Local center offset of a voxel as the spec words it:
(voxel_coord_as_float + 0.5) * dx - half_size. -/
def specLocalOffset (cv : CVoxels) (x y z : ℕ) : Vec3 :=
  Vec3.smul cv.dx ⟨(x : ℚ) + 1 / 2, (y : ℚ) + 1 / 2, (z : ℚ) + 1 / 2⟩ - cv.half_size

/-- C5: for every grid and voxel coordinate, the voxel center offset the
demo code computes equals (voxel_coord_as_float + 0.5) * dx - half_size,
and the resulting world position is the grid transform applied to that
local offset. -/
theorem voxel_center_world (cv : CVoxels) (index : ℕ) :
    drawVoxelLocalOffset cv index =
      specLocalOffset cv (decomposeIndex cv index).1 (decomposeIndex cv index).2.1
        (decomposeIndex cv index).2.2 ∧
    (drawVoxelIso cv index).tr = cv.transform.apply (drawVoxelLocalOffset cv index) := by
  constructor
  · unfold drawVoxelLocalOffset specLocalOffset
    apply Vec3.ext3 <;> simp <;> ring
  · unfold drawVoxelIso Iso3.mul Iso3.ofTranslation Iso3.apply
    rfl

/-- Occupied indices are listed in strictly increasing order. -/
theorem occupiedIndices_sorted (cv : CVoxels) :
    cv.occupiedIndices.Pairwise (fun a b => a < b) :=
  List.Pairwise.filter _ (List.pairwise_lt_range _)

/-- Membership in the occupied-index list. -/
theorem mem_occupiedIndices (cv : CVoxels) (i : ℕ) :
    i ∈ cv.occupiedIndices ↔ i < cv.totalCells ∧ cv.occupancy.getD i false = true := by
  simp [CVoxels.occupiedIndices, List.mem_filter, List.mem_range]

/-- On a strictly increasing list, find? returns a hit that is no larger
than any other hit. -/
theorem find_first_le (l : List ℕ) (p : ℕ → Bool) (j : ℕ)
    (hsort : l.Pairwise (fun a b => a < b)) (h : l.find? p = some j) :
    j ∈ l ∧ p j = true ∧ ∀ j2 ∈ l, p j2 = true → j ≤ j2 := by
  induction l with
  | nil => simp at h
  | cons a t ih =>
    cases hpa : p a with
    | true =>
      rw [List.find?_cons_of_pos _ hpa] at h
      have haj : a = j := by simpa using h
      subst haj
      refine ⟨List.mem_cons_self _ _, hpa, ?_⟩
      intro j2 hj2 _
      rcases List.mem_cons.mp hj2 with heq | hj2
      · exact le_of_eq heq.symm
      · exact le_of_lt ((List.pairwise_cons.mp hsort).1 j2 hj2)
    | false =>
      rw [List.find?_cons_of_neg _ (by simp [hpa])] at h
      obtain ⟨hmem, hpj, hmin⟩ := ih (List.pairwise_cons.mp hsort).2 h
      refine ⟨List.mem_cons_of_mem _ hmem, hpj, ?_⟩
      intro j2 hj2 hpj2
      rcases List.mem_cons.mp hj2 with heq | hj2
      · exact absurd hpj2 (by rw [heq]; simp [hpa])
      · exact hmin j2 hj2 hpj2

/-- On a strictly increasing list, findSome? succeeds at the first
element where the function succeeds, provided the function reveals its
argument in the first component of its result. -/
theorem findSome_first (l : List ℕ) (f : ℕ → Option (ℕ × ℕ)) (i j : ℕ)
    (hsort : l.Pairwise (fun a b => a < b))
    (hf : ∀ a p, f a = some p → p.1 = a)
    (h : l.findSome? f = some (i, j)) :
    i ∈ l ∧ f i = some (i, j) ∧ ∀ i2 ∈ l, i2 < i → f i2 = none := by
  induction l with
  | nil => simp at h
  | cons a t ih =>
    rw [List.findSome?_cons] at h
    cases hfa : f a with
    | some p =>
      rw [hfa] at h
      have hp : p = (i, j) := by simpa using h
      subst hp
      have hai : a = i := (hf a (i, j) hfa).symm
      subst hai
      refine ⟨List.mem_cons_self _ _, hfa, ?_⟩
      intro i2 hi2 hlt
      rcases List.mem_cons.mp hi2 with hkeq | hi2
      · exact absurd hlt (by rw [hkeq]; exact lt_irrefl a)
      · exact absurd hlt (not_lt_of_ge (le_of_lt ((List.pairwise_cons.mp hsort).1 i2 hi2)))
    | none =>
      rw [hfa] at h
      obtain ⟨hmem, hfi, hnone⟩ := ih (List.pairwise_cons.mp hsort).2 h
      refine ⟨List.mem_cons_of_mem _ hmem, hfi, ?_⟩
      intro i2 hi2 hlt
      rcases List.mem_cons.mp hi2 with hkeq | hi2
      · rw [hkeq]; exact hfa
      · exact hnone i2 hi2 hlt

/-- C3: intersected is deterministic; it scans occupied voxels in
index-ascending order and the returned pair is the lexicographically
first occupied pair whose world-space cell AABBs overlap, so the result
is a pure function of occupancy and transforms and identical on every
call with the same inputs. -/
theorem intersected_deterministic_first (a b : CVoxels) (i j : ℕ)
    (h : a.intersected b = some (i, j)) :
    i ∈ a.occupiedIndices ∧ j ∈ b.occupiedIndices ∧
    Aabb.overlaps (a.cellWorldAabb i) (b.cellWorldAabb j) ∧
    ∀ i2 j2, i2 ∈ a.occupiedIndices → j2 ∈ b.occupiedIndices →
      Aabb.overlaps (a.cellWorldAabb i2) (b.cellWorldAabb j2) →
      i ≤ i2 ∧ (i2 = i → j ≤ j2) := by
  unfold CVoxels.intersected at h
  have hf : ∀ a0 p, (b.occupiedIndices.find? (fun j0 =>
      decide (Aabb.overlaps (a.cellWorldAabb a0) (b.cellWorldAabb j0)))).map
        (fun j0 => (a0, j0)) = some p → p.1 = a0 := by
    intro a0 p hp
    cases hx : b.occupiedIndices.find? (fun j0 =>
        decide (Aabb.overlaps (a.cellWorldAabb a0) (b.cellWorldAabb j0))) with
    | none => rw [hx] at hp; simp at hp
    | some v => rw [hx] at hp; simp at hp; rw [← hp]
  obtain ⟨hmem, hfi, hnone⟩ := findSome_first a.occupiedIndices _ i j
    (occupiedIndices_sorted a) hf h
  have hfind : b.occupiedIndices.find? (fun j0 =>
      decide (Aabb.overlaps (a.cellWorldAabb i) (b.cellWorldAabb j0))) = some j := by
    cases hx : b.occupiedIndices.find? (fun j0 =>
        decide (Aabb.overlaps (a.cellWorldAabb i) (b.cellWorldAabb j0))) with
    | none => rw [hx] at hfi; simp at hfi
    | some v => rw [hx] at hfi; simp at hfi; rw [hfi]
  obtain ⟨hjmem, hpj, hjmin⟩ := find_first_le _ _ j (occupiedIndices_sorted b) hfind
  have hov : Aabb.overlaps (a.cellWorldAabb i) (b.cellWorldAabb j) := of_decide_eq_true hpj
  refine ⟨hmem, hjmem, hov, ?_⟩
  intro i2 j2 hi2 hj2 hov2
  constructor
  · by_contra hlt
    push_neg at hlt
    have hni2 := hnone i2 hi2 hlt
    cases hx : b.occupiedIndices.find? (fun j0 =>
        decide (Aabb.overlaps (a.cellWorldAabb i2) (b.cellWorldAabb j0))) with
    | some v => rw [hx] at hni2; simp at hni2
    | none =>
      have := List.find?_eq_none.mp hx j2 hj2
      simp at this
      exact this hov2
  · intro heq
    subst heq
    exact hjmin j2 hj2 (decide_eq_true hov2)

/-- Witness grid for the narrow-phase theorems: a single occupied unit
cell centered at the origin. -/
def unitCellGrid : CVoxels :=
  ⟨1, ⟨1, 1, 1⟩, 1, ⟨1 / 2, 1 / 2, 1 / 2⟩, [true], Iso3.identity⟩

/-- Evaluation fact used by the witnesses: the unit cell grid overlaps
itself and intersected finds the pair (0, 0). -/
theorem unitCellGrid_intersected_self : unitCellGrid.intersected unitCellGrid = some (0, 0) := by
  have hocc : unitCellGrid.occupiedIndices = [0] := by decide
  have hov : Aabb.overlaps (unitCellGrid.cellWorldAabb 0) (unitCellGrid.cellWorldAabb 0) := by
    unfold unitCellGrid CVoxels.cellWorldAabb CVoxels.cellLocalLo CVoxels.cellLocalHi
      transformedBoxAabb decomposeIndex boxCorner pick Iso3.apply Iso3.identity
    simp [Mat3.idm_mulVec, Aabb.overlaps, Aabb.inter, Aabb.nonemptyP]
  unfold CVoxels.intersected
  rw [hocc]
  simp [List.findSome?_cons, List.find?_cons_of_pos _ (decide_eq_true hov), hov]

/-- Witness for intersected_deterministic_first at two copies of the
unit cell grid, where the first overlapping pair is (0, 0). -/
theorem intersected_deterministic_first_witness :
    0 ∈ unitCellGrid.occupiedIndices ∧ 0 ∈ unitCellGrid.occupiedIndices ∧
    Aabb.overlaps (unitCellGrid.cellWorldAabb 0) (unitCellGrid.cellWorldAabb 0) ∧
    ∀ i2 j2, i2 ∈ unitCellGrid.occupiedIndices → j2 ∈ unitCellGrid.occupiedIndices →
      Aabb.overlaps (unitCellGrid.cellWorldAabb i2) (unitCellGrid.cellWorldAabb j2) →
      0 ≤ i2 ∧ (i2 = 0 → 0 ≤ j2) :=
  intersected_deterministic_first unitCellGrid unitCellGrid 0 0 unitCellGrid_intersected_self

/-- Shared helper: when no occupied pair of cells overlaps, the
narrow-phase scan comes up empty. -/
theorem intersected_no_pair_none (a b : CVoxels)
    (hno : ∀ i ∈ a.occupiedIndices, ∀ j ∈ b.occupiedIndices,
      ¬ Aabb.overlaps (a.cellWorldAabb i) (b.cellWorldAabb j)) :
    a.intersected b = none := by
  unfold CVoxels.intersected
  rw [List.findSome?_eq_none_iff]
  intro i hi
  have : b.occupiedIndices.find? (fun j0 =>
      decide (Aabb.overlaps (a.cellWorldAabb i) (b.cellWorldAabb j0))) = none := by
    rw [List.find?_eq_none]
    intro j hj
    simp
    exact hno i hi j hj
  rw [this]
  simp

/-- C8: intersected returns none (and, being a total function of its
inputs, cannot panic) when either grid has no occupied voxels, and
likewise returns none when no occupied pair overlaps even if the
broad-phase boxes do. -/
theorem intersected_none_cases (a b : CVoxels) :
    ((a.occupiedIndices = [] ∨ b.occupiedIndices = []) → a.intersected b = none) ∧
    ((∀ i ∈ a.occupiedIndices, ∀ j ∈ b.occupiedIndices,
        ¬ Aabb.overlaps (a.cellWorldAabb i) (b.cellWorldAabb j)) →
      a.intersected b = none) := by
  constructor
  · rintro (hemp | hemp) <;> unfold CVoxels.intersected <;> rw [hemp] <;> simp
  · exact intersected_no_pair_none a b

/-- Witness for intersected_none_cases: a grid holding one unoccupied
cell paired against the occupied unit cell grid yields none. -/
theorem intersected_none_cases_witness :
    CVoxels.intersected ⟨1, ⟨1, 1, 1⟩, 1, ⟨1 / 2, 1 / 2, 1 / 2⟩, [false], Iso3.identity⟩
      unitCellGrid = none :=
  (intersected_none_cases ⟨1, ⟨1, 1, 1⟩, 1, ⟨1 / 2, 1 / 2, 1 / 2⟩, [false], Iso3.identity⟩
    unitCellGrid).1 (Or.inl (by decide))

/-- Applying a transform with identity rotation is translation. -/
theorem apply_id_rot (t : Iso3) (hrot : t.rot = Mat3.idm) (v : Vec3) :
    t.apply v = v + t.tr := by
  unfold Iso3.apply
  rw [hrot, Mat3.idm_mulVec]

/-- X-axis bounds of a transformed box under identity rotation: the
resulting AABB stays inside the translated local x-range. -/
theorem boxAabb_x_bounds (t : Iso3) (lo hi : Vec3) (hrot : t.rot = Mat3.idm)
    (hx : lo.x ≤ hi.x) :
    lo.x + t.tr.x ≤ (transformedBoxAabb t lo hi).lo.x ∧
    (transformedBoxAabb t lo hi).hi.x ≤ hi.x + t.tr.x := by
  unfold transformedBoxAabb
  simp only [apply_id_rot t hrot, boxCorner, pick]
  constructor
  · simp only [Vec3.vmin_x, Vec3.add_x, le_min_iff]
    norm_num
    exact hx
  · simp only [Vec3.vmax_x, Vec3.add_x, max_le_iff]
    norm_num
    exact hx

/-- Outer-corner bounds of a transformed box under identity rotation:
the resulting AABB reaches at least the translated corner points. -/
theorem boxAabb_corner_bounds (t : Iso3) (lo hi : Vec3) (hrot : t.rot = Mat3.idm) :
    (transformedBoxAabb t lo hi).lo.x ≤ lo.x + t.tr.x ∧
    hi.x + t.tr.x ≤ (transformedBoxAabb t lo hi).hi.x ∧
    (transformedBoxAabb t lo hi).lo.y ≤ lo.y + t.tr.y ∧
    hi.y + t.tr.y ≤ (transformedBoxAabb t lo hi).hi.y ∧
    (transformedBoxAabb t lo hi).lo.z ≤ lo.z + t.tr.z ∧
    hi.z + t.tr.z ≤ (transformedBoxAabb t lo hi).hi.z := by
  unfold transformedBoxAabb
  simp only [apply_id_rot t hrot, boxCorner, pick]
  refine ⟨?_, ?_, ?_, ?_, ?_, ?_⟩ <;>
    simp only [Vec3.vmin_x, Vec3.vmin_y, Vec3.vmin_z, Vec3.vmax_x, Vec3.vmax_y,
      Vec3.vmax_z, Vec3.add_x, Vec3.add_y, Vec3.add_z, min_le_iff, le_max_iff] <;>
    norm_num

/-- The x half-extent of a well-formed grid is nonnegative. -/
theorem half_size_x_nonneg (cv : CVoxels) (hwf : cv.WF) : 0 ≤ cv.half_size.x := by
  obtain ⟨hdx, -, hhs, -⟩ := hwf
  rw [hhs]
  positivity

/-- The x-range of an occupied cell in local space sits inside the
half-extent of a well-formed grid. -/
theorem cell_x_in_half_size (cv : CVoxels) (hwf : cv.WF) (i : ℕ)
    (hi : i ∈ cv.occupiedIndices) :
    -cv.half_size.x ≤ (cv.cellLocalLo i).x ∧ (cv.cellLocalHi i).x ≤ cv.half_size.x ∧
    (cv.cellLocalLo i).x ≤ (cv.cellLocalHi i).x := by
  obtain ⟨hdx, harea, hhs, hlen⟩ := hwf
  have hilt : i < cv.totalCells := ((mem_occupiedIndices cv i).mp hi).1
  have hsx : cv.shape.x ≠ 0 := by
    intro h0
    rw [CVoxels.totalCells, h0] at hilt
    simp at hilt
  have hxlt : (decomposeIndex cv i).1 < cv.shape.x := by
    unfold decomposeIndex
    exact Nat.mod_lt _ (Nat.pos_of_ne_zero hsx)
  have hcast : ((decomposeIndex cv i).1 : ℚ) + 1 ≤ (cv.shape.x : ℚ) := by
    have : (decomposeIndex cv i).1 + 1 ≤ cv.shape.x := hxlt
    exact_mod_cast this
  have hx0 : (0 : ℚ) ≤ ((decomposeIndex cv i).1 : ℚ) := Nat.cast_nonneg _
  unfold CVoxels.cellLocalLo CVoxels.cellLocalHi
  rw [hhs]
  simp only [Vec3.sub_x, Vec3.smul_x]
  refine ⟨?_, ?_, ?_⟩
  · nlinarith
  · nlinarith
  · nlinarith

/-- C2: the broad phase intersects the two world AABBs (each the
componentwise min/max of the 8 transformed corner points of the grid)
axis-wise, and returns none exactly when some axis of the intersection
has its minimum above its maximum; in particular two grids separated
along the x axis by more than the sum of their half-extents get none
from both intersection_aabb and intersected. -/
theorem intersection_aabb_correct (a b : CVoxels) :
    (a.intersection_aabb b = none ↔
      ((Aabb.inter a.world_aabb b.world_aabb).hi.x <
          (Aabb.inter a.world_aabb b.world_aabb).lo.x ∨
        (Aabb.inter a.world_aabb b.world_aabb).hi.y <
          (Aabb.inter a.world_aabb b.world_aabb).lo.y ∨
        (Aabb.inter a.world_aabb b.world_aabb).hi.z <
          (Aabb.inter a.world_aabb b.world_aabb).lo.z)) ∧
    (a.WF → b.WF → a.transform.rot = Mat3.idm → b.transform.rot = Mat3.idm →
      a.half_size.x + b.half_size.x < b.transform.tr.x - a.transform.tr.x →
      a.intersection_aabb b = none ∧ a.intersected b = none) := by
  constructor
  · unfold CVoxels.intersection_aabb
    by_cases hne : (Aabb.inter a.world_aabb b.world_aabb).nonemptyP
    · rw [if_pos hne]
      obtain ⟨h1, h2, h3⟩ := hne
      constructor
      · intro hcontra
        exact absurd hcontra (by simp)
      · rintro (hv | hv | hv)
        · exact absurd h1 (not_le.mpr hv)
        · exact absurd h2 (not_le.mpr hv)
        · exact absurd h3 (not_le.mpr hv)
    · rw [if_neg hne]
      simp only [Aabb.nonemptyP, not_and_or, not_le] at hne
      constructor
      · intro _
        exact hne
      · intro _
        rfl
  · intro hwa hwb hra hrb hsep
    have ha0 : 0 ≤ a.half_size.x := half_size_x_nonneg a hwa
    have hb0 : 0 ≤ b.half_size.x := half_size_x_nonneg b hwb
    have hwaB := boxAabb_x_bounds a.transform (Vec3.neg a.half_size) a.half_size hra
      (by simp; linarith)
    have hwbB := boxAabb_x_bounds b.transform (Vec3.neg b.half_size) b.half_size hrb
      (by simp; linarith)
    simp only [Vec3.neg_x] at hwaB hwbB
    constructor
    · unfold CVoxels.intersection_aabb
      rw [if_neg]
      intro hne
      obtain ⟨h1, -, -⟩ := hne
      simp only [Aabb.inter, Vec3.vmax_x, Vec3.vmin_x, max_le_iff, le_min_iff] at h1
      obtain ⟨⟨-, hbl⟩, hah, -⟩ := h1
      have hwahi : (a.world_aabb).hi.x ≤ a.half_size.x + a.transform.tr.x := hwaB.2
      have hwblo : -b.half_size.x + b.transform.tr.x ≤ (b.world_aabb).lo.x := hwbB.1
      linarith
    · apply intersected_no_pair_none
      intro i hi j hj hov
      have hca := cell_x_in_half_size a hwa i hi
      have hcb := cell_x_in_half_size b hwb j hj
      have hcaB := boxAabb_x_bounds a.transform (a.cellLocalLo i) (a.cellLocalHi i) hra hca.2.2
      have hcbB := boxAabb_x_bounds b.transform (b.cellLocalLo j) (b.cellLocalHi j) hrb hcb.2.2
      obtain ⟨h1, -, -⟩ := hov
      simp only [Aabb.inter, Vec3.vmax_x, Vec3.vmin_x, max_le_iff, le_min_iff] at h1
      obtain ⟨⟨-, hbl⟩, hah, -⟩ := h1
      unfold CVoxels.cellWorldAabb at hbl hah
      have e1 : (transformedBoxAabb a.transform (a.cellLocalLo i) (a.cellLocalHi i)).hi.x ≤
          (a.cellLocalHi i).x + a.transform.tr.x := hcaB.2
      have e2 : (b.cellLocalLo j).x + b.transform.tr.x ≤
          (transformedBoxAabb b.transform (b.cellLocalLo j) (b.cellLocalHi j)).lo.x := hcbB.1
      have e3 : (a.cellLocalHi i).x ≤ a.half_size.x := hca.2.1
      have e4 : -b.half_size.x ≤ (b.cellLocalLo j).x := hcb.1
      linarith

@[simp] theorem Vec3.zero_x : (0 : Vec3).x = 0 := rfl

@[simp] theorem Vec3.zero_y : (0 : Vec3).y = 0 := rfl

@[simp] theorem Vec3.zero_z : (0 : Vec3).z = 0 := rfl

/-- The unit cell grid satisfies the data-model invariants. -/
theorem unitCellGrid_wf : unitCellGrid.WF := by
  refine ⟨by norm_num [unitCellGrid], rfl, ?_, rfl⟩
  show (⟨1 / 2, 1 / 2, 1 / 2⟩ : Vec3) = _
  norm_num [unitCellGrid]

/-- A copy of the unit cell grid translated two units along x, farther
than the combined half-extents. -/
def unitCellGridFar : CVoxels :=
  { unitCellGrid with transform := Iso3.ofTranslation ⟨2, 0, 0⟩ }

/-- The translated unit cell grid satisfies the data-model invariants. -/
theorem unitCellGridFar_wf : unitCellGridFar.WF := by
  refine ⟨by norm_num [unitCellGridFar, unitCellGrid], rfl, ?_, rfl⟩
  show (⟨1 / 2, 1 / 2, 1 / 2⟩ : Vec3) = _
  norm_num [unitCellGridFar, unitCellGrid]

/-- Witness for intersection_aabb_correct: the unit cell grid against a
copy translated by two units along x is rejected by both phases. -/
theorem intersection_aabb_correct_witness :
    unitCellGrid.intersection_aabb unitCellGridFar = none ∧
    unitCellGrid.intersected unitCellGridFar = none :=
  (intersection_aabb_correct unitCellGrid unitCellGridFar).2 unitCellGrid_wf
    unitCellGridFar_wf rfl rfl
    (by norm_num [unitCellGrid, unitCellGridFar, Iso3.identity, Iso3.ofTranslation])

/-- Axis-aligned bounding box of a vertex list: none when the list is
empty, else the fold of componentwise min and max. -/
def meshAabb (verts : List Vec3) : Option Aabb :=
  match verts with
  | [] => none
  | v :: rest => some (rest.foldl (fun acc p => ⟨Vec3.vmin acc.lo p, Vec3.vmax acc.hi p⟩) ⟨v, v⟩)

/-- Flat index of the voxel containing a vertex, clamped into the grid;
used to mark occupancy. -/
def vertexVoxelFlat (dx : ℚ) (shape : Shape3) (lo : Vec3) (p : Vec3) : ℕ :=
  let cx := min (shape.x - 1) (⌊(p.x - lo.x) / dx⌋.toNat)
  let cy := min (shape.y - 1) (⌊(p.y - lo.y) / dx⌋.toNat)
  let cz := min (shape.z - 1) (⌊(p.z - lo.z) / dx⌋.toNat)
  cz * (shape.x * shape.y) + cy * shape.x + cx

/-- Modelled from the spec: conservative occupancy marking; every voxel
a mesh vertex falls into is marked solid (the spec leaves the exact fill
rule open, requiring at minimum the voxels the surface passes through;
the claims under proof do not depend on the fill rule; the cvoxel crate
source is not under src/). -/
def markOccupancy (verts : List Vec3) (dx : ℚ) (shape : Shape3) (lo : Vec3) : List Bool :=
  (List.range (shape.x * shape.y * shape.z)).map
    (fun i => verts.any (fun p => vertexVoxelFlat dx shape lo p == i))

/-- Modelled from the spec: from_trimesh computes the mesh AABB, derives
the shape by dividing the extents by dx and rounding up, fails with none
on non-positive dx, empty vertex data, or a zero shape dimension, sets
half_size from the grid extents, and places the grid (whose local box
spans plus and minus half_size) at the mesh AABB center with identity
rotation (the cvoxel crate source is not under src/). -/
def CVoxels.from_trimesh (verts : List Vec3) (dx : ℚ) : Option CVoxels :=
  if dx ≤ 0 then none
  else
    match meshAabb verts with
    | none => none
    | some box =>
      let sx := (⌈(box.hi.x - box.lo.x) / dx⌉).toNat
      let sy := (⌈(box.hi.y - box.lo.y) / dx⌉).toNat
      let sz := (⌈(box.hi.z - box.lo.z) / dx⌉).toNat
      if sx = 0 ∨ sy = 0 ∨ sz = 0 then none
      else
        some ⟨dx, ⟨sx, sy, sz⟩, sx * sy,
          ⟨sx * dx / 2, sy * dx / 2, sz * dx / 2⟩,
          markOccupancy verts dx ⟨sx, sy, sz⟩ box.lo,
          Iso3.ofTranslation (Vec3.smul (1 / 2) (box.lo + box.hi))⟩

/-- Modelled from the spec: from_indexed_mesh selects vertices through
the index buffer, three per triangle, and voxelizes the selected
vertex stream as from_trimesh does (the cvoxel crate source is not
under src/). -/
def CVoxels.from_indexed_mesh (verts : List Vec3) (indices : List ℕ) (dx : ℚ) :
    Option CVoxels :=
  CVoxels.from_trimesh (indices.filterMap (fun i => verts[i]?)) dx

/-- Vertex attribute payload of a mesh, embedded from the bevy
VertexAttributeValues cases that voxelize_mesh distinguishes: the
Float32x3 layout it accepts, and any other layout. -/
inductive VertexAttrValues where
  | float32x3 (verts : List Vec3)
  | otherLayout
deriving DecidableEq

/-- Index data of a mesh, embedded from the bevy Indices cases: 16-bit,
32-bit, or no index buffer. -/
inductive MeshIndexData where
  | u16 (ids : List ℕ)
  | u32 (ids : List ℕ)
  | noIndices
deriving DecidableEq

/-- Mesh voxelization entry point, embedded from voxelize_mesh in
src/examples/intersection/src/main.rs: dispatch on the position
attribute layout and the index kind, returning none on an unrecognized
layout. -/
def voxelize_mesh (attr : VertexAttrValues) (idata : MeshIndexData) (dx : ℚ) :
    Option CVoxels :=
  match attr with
  | .float32x3 v =>
    match idata with
    | .u16 ids => CVoxels.from_indexed_mesh v ids dx
    | .u32 ids => CVoxels.from_indexed_mesh v ids dx
    | .noIndices => CVoxels.from_trimesh v dx
  | .otherLayout => none

/-- C4: construction failure is always the none outcome of a total
function, never an abort: from_trimesh and from_indexed_mesh yield none
on empty vertex data, on non-positive voxel size, and on a derived
shape with a zero dimension, and voxelize_mesh yields none on an
unrecognized vertex attribute layout. -/
theorem construction_failure_is_none (verts : List Vec3) (indices : List ℕ) (dx : ℚ)
    (idata : MeshIndexData) :
    (CVoxels.from_trimesh [] dx = none) ∧
    (CVoxels.from_indexed_mesh [] indices dx = none) ∧
    (dx ≤ 0 → CVoxels.from_trimesh verts dx = none) ∧
    (dx ≤ 0 → CVoxels.from_indexed_mesh verts indices dx = none) ∧
    (∀ box, meshAabb verts = some box →
      ((⌈(box.hi.x - box.lo.x) / dx⌉).toNat = 0 ∨
        (⌈(box.hi.y - box.lo.y) / dx⌉).toNat = 0 ∨
        (⌈(box.hi.z - box.lo.z) / dx⌉).toNat = 0) →
      CVoxels.from_trimesh verts dx = none) ∧
    (voxelize_mesh VertexAttrValues.otherLayout idata dx = none) := by
  have hempty : ∀ d : ℚ, CVoxels.from_trimesh [] d = none := by
    intro d
    unfold CVoxels.from_trimesh
    by_cases hd : d ≤ 0
    · rw [if_pos hd]
    · rw [if_neg hd]
      simp [meshAabb]
  refine ⟨hempty dx, ?_, ?_, ?_, ?_, ?_⟩
  · unfold CVoxels.from_indexed_mesh
    have : (indices.filterMap (fun i => ([] : List Vec3)[i]?)) = [] := by
      simp
    rw [this]
    exact hempty dx
  · intro hd
    unfold CVoxels.from_trimesh
    rw [if_pos hd]
  · intro hd
    unfold CVoxels.from_indexed_mesh CVoxels.from_trimesh
    rw [if_pos hd]
  · intro box hbox hzero
    unfold CVoxels.from_trimesh
    by_cases hd : dx ≤ 0
    · rw [if_pos hd]
    · rw [if_neg hd]
      simp only [hbox]
      rw [if_pos hzero]
  · rfl

/-- Witness for construction_failure_is_none: a degenerate mesh whose
vertices coincide has zero extent, hence a zero-dimension derived shape,
and from_trimesh rejects it with none. -/
theorem construction_failure_is_none_witness :
    CVoxels.from_trimesh [(⟨1, 1, 1⟩ : Vec3), ⟨1, 1, 1⟩, ⟨1, 1, 1⟩] (1 / 2) = none := by
  have hbox : meshAabb [(⟨1, 1, 1⟩ : Vec3), ⟨1, 1, 1⟩, ⟨1, 1, 1⟩] =
      some ⟨⟨1, 1, 1⟩, ⟨1, 1, 1⟩⟩ := by
    simp [meshAabb, Vec3.vmin, Vec3.vmax]
  exact (construction_failure_is_none [(⟨1, 1, 1⟩ : Vec3), ⟨1, 1, 1⟩, ⟨1, 1, 1⟩] [] (1 / 2)
    MeshIndexData.noIndices).2.2.2.2.1 ⟨⟨1, 1, 1⟩, ⟨1, 1, 1⟩⟩ hbox
    (by norm_num)

/-- A rational is at most the natural number obtained by rounding it up
(negative values round up to zero). -/
theorem le_ceil_toNat (q : ℚ) : q ≤ ((⌈q⌉.toNat : ℕ) : ℚ) := by
  have h1 := Int.le_ceil q
  have h2 : ((⌈q⌉ : ℤ) : ℚ) ≤ ((⌈q⌉.toNat : ℤ) : ℚ) := by
    exact_mod_cast Int.self_le_toNat _
  have h3 : ((⌈q⌉.toNat : ℤ) : ℚ) = ((⌈q⌉.toNat : ℕ) : ℚ) := by push_cast; ring
  linarith

/-- Under identity rotation the world AABB of a grid reaches the
translated corners plus and minus half_size on every axis. -/
theorem world_aabb_corner_bounds (cv : CVoxels) (hrot : cv.transform.rot = Mat3.idm) :
    cv.world_aabb.lo.x ≤ -cv.half_size.x + cv.transform.tr.x ∧
    cv.half_size.x + cv.transform.tr.x ≤ cv.world_aabb.hi.x ∧
    cv.world_aabb.lo.y ≤ -cv.half_size.y + cv.transform.tr.y ∧
    cv.half_size.y + cv.transform.tr.y ≤ cv.world_aabb.hi.y ∧
    cv.world_aabb.lo.z ≤ -cv.half_size.z + cv.transform.tr.z ∧
    cv.half_size.z + cv.transform.tr.z ≤ cv.world_aabb.hi.z := by
  unfold CVoxels.world_aabb
  have h := boxAabb_corner_bounds cv.transform (Vec3.neg cv.half_size) cv.half_size hrot
  simpa using h

/-- C6: a successful from_trimesh derives the shape from the mesh AABB
extents divided by dx and rounded up, every shape dimension is at least
one, half_size equals shape times dx over two, and the world AABB of the grid
under its default (identity-rotation) placement contains the source mesh
AABB on every axis within one voxel of slack. -/
theorem voxelize_shape_consistent (verts : List Vec3) (dx : ℚ) (g : CVoxels)
    (h : CVoxels.from_trimesh verts dx = some g) :
    ∃ box, meshAabb verts = some box ∧
      g.shape = ⟨(⌈(box.hi.x - box.lo.x) / dx⌉).toNat, (⌈(box.hi.y - box.lo.y) / dx⌉).toNat,
        (⌈(box.hi.z - box.lo.z) / dx⌉).toNat⟩ ∧
      1 ≤ g.shape.x ∧ 1 ≤ g.shape.y ∧ 1 ≤ g.shape.z ∧
      g.half_size = ⟨g.shape.x * g.dx / 2, g.shape.y * g.dx / 2, g.shape.z * g.dx / 2⟩ ∧
      g.world_aabb.lo.x - g.dx ≤ box.lo.x ∧ box.hi.x ≤ g.world_aabb.hi.x + g.dx ∧
      g.world_aabb.lo.y - g.dx ≤ box.lo.y ∧ box.hi.y ≤ g.world_aabb.hi.y + g.dx ∧
      g.world_aabb.lo.z - g.dx ≤ box.lo.z ∧ box.hi.z ≤ g.world_aabb.hi.z + g.dx := by
  unfold CVoxels.from_trimesh at h
  by_cases hdx : dx ≤ 0
  · rw [if_pos hdx] at h
    exact absurd h (by simp)
  · rw [if_neg hdx] at h
    push_neg at hdx
    cases hbox : meshAabb verts with
    | none =>
      rw [hbox] at h
      exact absurd h (by simp)
    | some box =>
      simp only [hbox] at h
      by_cases hz : ((⌈(box.hi.x - box.lo.x) / dx⌉).toNat = 0 ∨
          (⌈(box.hi.y - box.lo.y) / dx⌉).toNat = 0 ∨
          (⌈(box.hi.z - box.lo.z) / dx⌉).toNat = 0)
      · rw [if_pos hz] at h
        exact absurd h (by simp)
      · rw [if_neg hz] at h
        push_neg at hz
        have hg := Option.some.inj h
        have hdxg : g.dx = dx := by rw [← hg]
        have hshape : g.shape = ⟨(⌈(box.hi.x - box.lo.x) / dx⌉).toNat,
            (⌈(box.hi.y - box.lo.y) / dx⌉).toNat,
            (⌈(box.hi.z - box.lo.z) / dx⌉).toNat⟩ := by rw [← hg]
        have hhsx : g.half_size.x = ((⌈(box.hi.x - box.lo.x) / dx⌉).toNat : ℚ) * dx / 2 := by
          rw [← hg]
        have hhsy : g.half_size.y = ((⌈(box.hi.y - box.lo.y) / dx⌉).toNat : ℚ) * dx / 2 := by
          rw [← hg]
        have hhsz : g.half_size.z = ((⌈(box.hi.z - box.lo.z) / dx⌉).toNat : ℚ) * dx / 2 := by
          rw [← hg]
        have hrotg : g.transform.rot = Mat3.idm := by rw [← hg]; rfl
        have htrx : g.transform.tr.x = 1 / 2 * (box.lo.x + box.hi.x) := by
          rw [← hg]; simp [Iso3.ofTranslation]
        have htry : g.transform.tr.y = 1 / 2 * (box.lo.y + box.hi.y) := by
          rw [← hg]; simp [Iso3.ofTranslation]
        have htrz : g.transform.tr.z = 1 / 2 * (box.lo.z + box.hi.z) := by
          rw [← hg]; simp [Iso3.ofTranslation]
        have hex : box.hi.x - box.lo.x ≤ ((⌈(box.hi.x - box.lo.x) / dx⌉).toNat : ℚ) * dx := by
          have := le_ceil_toNat ((box.hi.x - box.lo.x) / dx)
          rw [div_le_iff hdx] at this
          exact this
        have hey : box.hi.y - box.lo.y ≤ ((⌈(box.hi.y - box.lo.y) / dx⌉).toNat : ℚ) * dx := by
          have := le_ceil_toNat ((box.hi.y - box.lo.y) / dx)
          rw [div_le_iff hdx] at this
          exact this
        have hez : box.hi.z - box.lo.z ≤ ((⌈(box.hi.z - box.lo.z) / dx⌉).toNat : ℚ) * dx := by
          have := le_ceil_toNat ((box.hi.z - box.lo.z) / dx)
          rw [div_le_iff hdx] at this
          exact this
        obtain ⟨w1, w2, w3, w4, w5, w6⟩ := world_aabb_corner_bounds g hrotg
        refine ⟨box, rfl, hshape, ?_, ?_, ?_, ?_, ?_, ?_, ?_, ?_, ?_, ?_⟩
        · rw [hshape]; exact Nat.pos_of_ne_zero hz.1
        · rw [hshape]; exact Nat.pos_of_ne_zero hz.2.1
        · rw [hshape]; exact Nat.pos_of_ne_zero hz.2.2
        · apply Vec3.ext3 <;> rw [hshape, hdxg] <;> simp only [hhsx, hhsy, hhsz]
        · linarith
        · linarith
        · linarith
        · linarith
        · linarith
        · linarith

@[simp] theorem Vec3.add_def (a b : Vec3) : a + b = ⟨a.x + b.x, a.y + b.y, a.z + b.z⟩ := rfl

/-- Vertices of the unit cube mesh, at plus and minus one half on each
axis. -/
def cubeVerts : List Vec3 :=
  [⟨-(1 / 2), -(1 / 2), -(1 / 2)⟩, ⟨1 / 2, -(1 / 2), -(1 / 2)⟩,
   ⟨-(1 / 2), 1 / 2, -(1 / 2)⟩, ⟨1 / 2, 1 / 2, -(1 / 2)⟩,
   ⟨-(1 / 2), -(1 / 2), 1 / 2⟩, ⟨1 / 2, -(1 / 2), 1 / 2⟩,
   ⟨-(1 / 2), 1 / 2, 1 / 2⟩, ⟨1 / 2, 1 / 2, 1 / 2⟩]

/-- The grid the voxelizer produces for the unit cube at dx one half. -/
def cubeGrid : CVoxels :=
  ⟨1 / 2, ⟨2, 2, 2⟩, 4, ⟨1 / 2, 1 / 2, 1 / 2⟩,
   markOccupancy cubeVerts (1 / 2) ⟨2, 2, 2⟩ ⟨-(1 / 2), -(1 / 2), -(1 / 2)⟩,
   Iso3.ofTranslation ⟨0, 0, 0⟩⟩

/-- The cube grid re-posed at translation t. -/
def cubeGridAt (t : Vec3) : CVoxels := { cubeGrid with transform := Iso3.ofTranslation t }

/-- Mesh AABB of the unit cube. -/
theorem cube_meshAabb :
    meshAabb cubeVerts = some ⟨⟨-(1 / 2), -(1 / 2), -(1 / 2)⟩, ⟨1 / 2, 1 / 2, 1 / 2⟩⟩ := by
  unfold meshAabb cubeVerts
  norm_num [Vec3.vmin, Vec3.vmax, min_def, max_def]

/-- Voxelizing the unit cube at dx one half yields the cube grid. -/
theorem cube_from_trimesh : CVoxels.from_trimesh cubeVerts (1 / 2) = some cubeGrid := by
  unfold CVoxels.from_trimesh
  rw [if_neg (by norm_num)]
  simp only [cube_meshAabb]
  norm_num [Int.ceil_ofNat, cubeGrid, Iso3.ofTranslation, Vec3.smul]
  have h2 : Int.toNat 2 = 2 := rfl
  rw [h2]
  norm_num

/-- World AABB of the cube grid at the origin. -/
theorem cube_world_origin :
    cubeGrid.world_aabb = ⟨⟨-(1 / 2), -(1 / 2), -(1 / 2)⟩, ⟨1 / 2, 1 / 2, 1 / 2⟩⟩ := by
  unfold CVoxels.world_aabb cubeGrid transformedBoxAabb boxCorner pick Iso3.apply
    Iso3.ofTranslation
  norm_num [Mat3.idm_mulVec, Vec3.vmin, Vec3.vmax, Vec3.neg, min_def, max_def]

/-- World AABB of the cube grid translated one and a half units along
x. -/
theorem cube_world_far :
    (cubeGridAt ⟨3 / 2, 0, 0⟩).world_aabb = ⟨⟨1, -(1 / 2), -(1 / 2)⟩, ⟨2, 1 / 2, 1 / 2⟩⟩ := by
  unfold CVoxels.world_aabb cubeGridAt cubeGrid transformedBoxAabb boxCorner pick Iso3.apply
    Iso3.ofTranslation
  norm_num [Mat3.idm_mulVec, Vec3.vmin, Vec3.vmax, Vec3.neg, min_def, max_def]

/-- World AABB of the cube grid translated half a unit along x. -/
theorem cube_world_near :
    (cubeGridAt ⟨1 / 2, 0, 0⟩).world_aabb = ⟨⟨0, -(1 / 2), -(1 / 2)⟩, ⟨1, 1 / 2, 1 / 2⟩⟩ := by
  unfold CVoxels.world_aabb cubeGridAt cubeGrid transformedBoxAabb boxCorner pick Iso3.apply
    Iso3.ofTranslation
  norm_num [Mat3.idm_mulVec, Vec3.vmin, Vec3.vmax, Vec3.neg, min_def, max_def]

/-- C9: voxelizing the unit cube mesh with dx one half yields shape
(2, 2, 2), area 4 and half_size (1/2, 1/2, 1/2); against a second
identical grid translated by (3/2, 0, 0) intersection_aabb returns
none, and translated by (1/2, 0, 0) it returns some box with a valid
(possibly zero-width) overlap on the x axis. -/
theorem cube_example_scenario :
    CVoxels.from_trimesh cubeVerts (1 / 2) = some cubeGrid ∧
    cubeGrid.shape = ⟨2, 2, 2⟩ ∧ cubeGrid.area = 4 ∧
    cubeGrid.half_size = ⟨1 / 2, 1 / 2, 1 / 2⟩ ∧
    cubeGrid.intersection_aabb (cubeGridAt ⟨3 / 2, 0, 0⟩) = none ∧
    ∃ box, cubeGrid.intersection_aabb (cubeGridAt ⟨1 / 2, 0, 0⟩) = some box ∧
      box.lo.x ≤ box.hi.x := by
  refine ⟨cube_from_trimesh, rfl, rfl, rfl, ?_, ?_⟩
  · unfold CVoxels.intersection_aabb
    rw [cube_world_origin, cube_world_far]
    norm_num [Aabb.inter, Aabb.nonemptyP, Vec3.vmin, Vec3.vmax, min_def, max_def]
  · refine ⟨⟨⟨0, -(1 / 2), -(1 / 2)⟩, ⟨1 / 2, 1 / 2, 1 / 2⟩⟩, ?_, by norm_num⟩
    unfold CVoxels.intersection_aabb
    rw [cube_world_origin, cube_world_near]
    norm_num [Aabb.inter, Aabb.nonemptyP, Vec3.vmin, Vec3.vmax, min_def, max_def]

/-- Witness for voxelize_shape_consistent at the unit cube mesh. -/
theorem voxelize_shape_consistent_witness :
    ∃ box, meshAabb cubeVerts = some box ∧
      cubeGrid.shape = ⟨(⌈(box.hi.x - box.lo.x) / (1 / 2 : ℚ)⌉).toNat,
        (⌈(box.hi.y - box.lo.y) / (1 / 2 : ℚ)⌉).toNat,
        (⌈(box.hi.z - box.lo.z) / (1 / 2 : ℚ)⌉).toNat⟩ ∧
      1 ≤ cubeGrid.shape.x ∧ 1 ≤ cubeGrid.shape.y ∧ 1 ≤ cubeGrid.shape.z ∧
      cubeGrid.half_size = ⟨cubeGrid.shape.x * cubeGrid.dx / 2,
        cubeGrid.shape.y * cubeGrid.dx / 2, cubeGrid.shape.z * cubeGrid.dx / 2⟩ ∧
      cubeGrid.world_aabb.lo.x - cubeGrid.dx ≤ box.lo.x ∧
      box.hi.x ≤ cubeGrid.world_aabb.hi.x + cubeGrid.dx ∧
      cubeGrid.world_aabb.lo.y - cubeGrid.dx ≤ box.lo.y ∧
      box.hi.y ≤ cubeGrid.world_aabb.hi.y + cubeGrid.dx ∧
      cubeGrid.world_aabb.lo.z - cubeGrid.dx ≤ box.lo.z ∧
      box.hi.z ≤ cubeGrid.world_aabb.hi.z + cubeGrid.dx :=
  voxelize_shape_consistent cubeVerts (1 / 2) cubeGrid cube_from_trimesh

/-- One of the six axis directions of a voxel face. -/
inductive Dir where
  | xp | xm | yp | ym | zp | zm
deriving DecidableEq

/-- The six face directions in a fixed order. -/
def allDirs : List Dir := [Dir.xp, Dir.xm, Dir.yp, Dir.ym, Dir.zp, Dir.zm]

/-- Integer offset of the neighboring voxel in a face direction. -/
def dirOffset : Dir → ℤ × ℤ × ℤ
  | Dir.xp => (1, 0, 0)
  | Dir.xm => (-1, 0, 0)
  | Dir.yp => (0, 1, 0)
  | Dir.ym => (0, -1, 0)
  | Dir.zp => (0, 0, 1)
  | Dir.zm => (0, 0, -1)

/-- Integer coordinates of the neighbor of the voxel at a flat index in
a face direction; may leave the grid. -/
def neighborPos (cv : CVoxels) (i : ℕ) (d : Dir) : ℤ × ℤ × ℤ :=
  let p := decomposeIndex cv i
  let o := dirOffset d
  ((p.1 : ℤ) + o.1, (p.2.1 : ℤ) + o.2.1, (p.2.2 : ℤ) + o.2.2)

/-- Whether integer voxel coordinates lie inside the grid bounds. -/
def inBounds (cv : CVoxels) (p : ℤ × ℤ × ℤ) : Prop :=
  0 ≤ p.1 ∧ p.1 < cv.shape.x ∧ 0 ≤ p.2.1 ∧ p.2.1 < cv.shape.y ∧ 0 ≤ p.2.2 ∧ p.2.2 < cv.shape.z

instance (cv : CVoxels) (p : ℤ × ℤ × ℤ) : Decidable (inBounds cv p) := by
  unfold inBounds; infer_instance

/-- Occupancy lookup at integer coordinates: false outside the grid,
else the occupancy bit at the recomposed flat index. -/
def occupiedAt (cv : CVoxels) (p : ℤ × ℤ × ℤ) : Bool :=
  if inBounds cv p then
    cv.occupancy.getD (recomposeIndex cv p.1.toNat p.2.1.toNat p.2.2.toNat) false
  else false

/-- Exposed-face test: the face of the voxel at flat index i facing d is
emitted when the neighboring voxel in that direction is unoccupied or
out of grid bounds. -/
def faceExposed (cv : CVoxels) (i : ℕ) (d : Dir) : Bool := ! occupiedAt cv (neighborPos cv i d)

/-- Modelled from the spec: the faces the surface extractor emits; for
every occupied voxel, each of its 6 faces whose neighbor in that
direction is unoccupied or out of bounds (the cvoxel crate source is
not under src/). -/
def surfaceFaces (cv : CVoxels) : List (ℕ × Dir) :=
  cv.occupiedIndices.flatMap (fun i =>
    (allDirs.filter (fun d => faceExposed cv i d)).map (fun d => (i, d)))

/-- Local-space corner positions of one emitted voxel face, four
vertices forming the two triangles of the quad, untransformed. -/
def faceVerts (cv : CVoxels) (i : ℕ) (d : Dir) : List Vec3 :=
  let lo := cv.cellLocalLo i
  let hi := cv.cellLocalHi i
  match d with
  | Dir.xp => [⟨hi.x, lo.y, lo.z⟩, ⟨hi.x, hi.y, lo.z⟩, ⟨hi.x, hi.y, hi.z⟩, ⟨hi.x, lo.y, hi.z⟩]
  | Dir.xm => [⟨lo.x, lo.y, lo.z⟩, ⟨lo.x, hi.y, lo.z⟩, ⟨lo.x, hi.y, hi.z⟩, ⟨lo.x, lo.y, hi.z⟩]
  | Dir.yp => [⟨lo.x, hi.y, lo.z⟩, ⟨hi.x, hi.y, lo.z⟩, ⟨hi.x, hi.y, hi.z⟩, ⟨lo.x, hi.y, hi.z⟩]
  | Dir.ym => [⟨lo.x, lo.y, lo.z⟩, ⟨hi.x, lo.y, lo.z⟩, ⟨hi.x, lo.y, hi.z⟩, ⟨lo.x, lo.y, hi.z⟩]
  | Dir.zp => [⟨lo.x, lo.y, hi.z⟩, ⟨hi.x, lo.y, hi.z⟩, ⟨hi.x, hi.y, hi.z⟩, ⟨lo.x, hi.y, hi.z⟩]
  | Dir.zm => [⟨lo.x, lo.y, lo.z⟩, ⟨hi.x, lo.y, lo.z⟩, ⟨hi.x, hi.y, lo.z⟩, ⟨lo.x, hi.y, lo.z⟩]

/-- Modelled from the spec: the surface mesh vertex positions, four
local-space vertices per exposed face, a pure read of the grid (the
cvoxel crate source is not under src/). -/
def CVoxels.surface_mesh (cv : CVoxels) : List Vec3 :=
  (surfaceFaces cv).flatMap (fun f => faceVerts cv f.1 f.2)

/-- The length of a flatMap is at most k times the list length when
every image has length at most k. -/
theorem flatMap_length_le {α β : Type} (l : List α) (f : α → List β) (k : ℕ)
    (h : ∀ a, (f a).length ≤ k) : (l.flatMap f).length ≤ k * l.length := by
  induction l with
  | nil => simp
  | cons a t ih =>
    rw [List.flatMap_cons, List.length_append, List.length_cons]
    have := h a
    calc (f a).length + (t.flatMap f).length ≤ k + k * t.length := by omega
      _ = k * (t.length + 1) := by ring

/-- The length of a flatMap is exactly k times the list length when
every image has length k. -/
theorem flatMap_length_eq {α β : Type} (l : List α) (f : α → List β) (k : ℕ)
    (h : ∀ a, (f a).length = k) : (l.flatMap f).length = k * l.length := by
  induction l with
  | nil => simp
  | cons a t ih =>
    rw [List.flatMap_cons, List.length_append, List.length_cons, h a, ih]
    ring

/-- C7: the surface extractor emits a face exactly when the voxel is
occupied and the neighbor in the face direction is out of bounds or
unoccupied, emits at most 6 k faces for k occupied voxels, and the
emitted positions are four untransformed local-space vertices per
face. -/
theorem surface_mesh_exposed_faces (cv : CVoxels) :
    (surfaceFaces cv).length ≤ 6 * cv.occupiedIndices.length ∧
    (∀ i d, (i, d) ∈ surfaceFaces cv ↔
      (i ∈ cv.occupiedIndices ∧
        (¬ inBounds cv (neighborPos cv i d) ∨
          cv.occupancy.getD (recomposeIndex cv (neighborPos cv i d).1.toNat
            (neighborPos cv i d).2.1.toNat (neighborPos cv i d).2.2.toNat) false = false))) ∧
    cv.surface_mesh.length = 4 * (surfaceFaces cv).length := by
  refine ⟨?_, ?_, ?_⟩
  · apply flatMap_length_le
    intro a
    calc ((allDirs.filter (fun d => faceExposed cv a d)).map (fun d => (a, d))).length
        = (allDirs.filter (fun d => faceExposed cv a d)).length := List.length_map _ _
      _ ≤ allDirs.length := List.length_filter_le _ _
      _ = 6 := rfl
  · intro i d
    unfold surfaceFaces
    rw [List.mem_flatMap]
    constructor
    · rintro ⟨a, ha, hmem⟩
      rw [List.mem_map] at hmem
      obtain ⟨d0, hd0, heq⟩ := hmem
      have hai : a = i := congrArg Prod.fst heq
      have hdd : d0 = d := congrArg Prod.snd heq
      subst hai
      subst hdd
      rw [List.mem_filter] at hd0
      have hexp := hd0.2
      unfold faceExposed at hexp
      have hocc0 : occupiedAt cv (neighborPos cv a d0) = false := by
        cases hb : occupiedAt cv (neighborPos cv a d0)
        · rfl
        · rw [hb] at hexp
          exact absurd hexp (by simp)
      refine ⟨ha, ?_⟩
      unfold occupiedAt at hocc0
      by_cases hib : inBounds cv (neighborPos cv a d0)
      · right
        rw [if_pos hib] at hocc0
        exact hocc0
      · left
        exact hib
    · rintro ⟨hi, hcond⟩
      refine ⟨i, hi, ?_⟩
      rw [List.mem_map]
      refine ⟨d, ?_, rfl⟩
      rw [List.mem_filter]
      refine ⟨by cases d <;> decide, ?_⟩
      unfold faceExposed occupiedAt
      rcases hcond with hib | hocc
      · rw [if_neg hib]
        rfl
      · by_cases hib : inBounds cv (neighborPos cv i d)
        · rw [if_pos hib, hocc]
          rfl
        · rw [if_neg hib]
          rfl
  · unfold CVoxels.surface_mesh
    apply flatMap_length_eq
    intro a
    cases a.2 <;> rfl

/-- Witness for surface_mesh_exposed_faces at the unit cell grid. -/
theorem surface_mesh_exposed_faces_witness :
    (surfaceFaces unitCellGrid).length ≤ 6 * unitCellGrid.occupiedIndices.length :=
  (surface_mesh_exposed_faces unitCellGrid).1
